import Mathlib

/-!
Verification of the klip backend-discovery / selection / host-trust subsystem.

The Go sources under `internal/backend` (detector.go, tailscale.go, lan.go,
netbird.go, headscale.go) and `internal/ssh/hostkeys.go` are shallowly
embedded below: pure Go functions become Lean functions, the known-hosts
file becomes an explicit store value threaded through the operations, and
process/environment effects (probe commands, DNS, terminal prompts) become
explicit parameters.
-/

namespace Klip

/-! ## String helpers (models of Go's `strings` package operations used by klip) -/

/-- Whether `pre` is a leading segment of `l` (character-wise). -/
def leadsList : List Char → List Char → Bool
  | [], _ => true
  | _ :: _, [] => false
  | a :: as, b :: bs => a == b && leadsList as bs

/-- Whether `needle` occurs contiguously inside `hay`. -/
def containsSub (hay needle : List Char) : Bool :=
  match hay with
  | [] => needle.isEmpty
  | _ :: tl => leadsList needle hay || containsSub tl needle

/-- Model of Go `strings.Contains(s, sub)`. -/
def strContains (s sub : String) : Bool :=
  containsSub s.toList sub.toList

/-- Model of Go `strings.ToLower` (ASCII case folding suffices for the inputs here). -/
def strToLower (s : String) : String :=
  String.mk (s.toList.map Char.toLower)

/-- Space-like characters trimmed by Go `strings.TrimSpace` on the outputs parsed here. -/
def isSpaceChar (c : Char) : Bool :=
  c == ' ' || c == '\t' || c == '\n' || c == '\r'

/-- Model of Go `strings.TrimSpace`. -/
def trimSpace (s : String) : String :=
  String.mk (((s.toList.dropWhile isSpaceChar).reverse.dropWhile isSpaceChar).reverse)

/-- Model of Go `strings.SplitN(s, sep, 2)` for a one-character separator:
either `[s]` (no separator present) or `[before, after]` split at the first occurrence. -/
def splitN2Aux (sep : Char) : List Char → List Char → List String
  | [], acc => [String.mk acc.reverse]
  | c :: rest, acc =>
    if c == sep then [String.mk acc.reverse, String.mk rest]
    else splitN2Aux sep rest (c :: acc)

/-- Model of Go `strings.SplitN(s, String.mk [sep], 2)`. -/
def splitN2 (s : String) (sep : Char) : List String :=
  splitN2Aux sep s.toList []

/-- Split into lines at the newline character, modelling `bufio.Scanner` over the
status output.  (When the output ends in a newline the scanner yields no final
empty token while this splitter yields one extra empty line; an empty line
matches none of the parser's substring tests, so the parse result agrees.) -/
def splitLinesAux : List Char → List Char → List String
  | [], acc => [String.mk acc.reverse]
  | c :: rest, acc =>
    if c == '\n' then String.mk acc.reverse :: splitLinesAux rest []
    else splitLinesAux rest (c :: acc)

/-- Split a string into its lines. -/
def splitLines (s : String) : List String :=
  splitLinesAux s.toList []

/-! ## NetBird status parsing (netbird.go: `parseNetBirdStatus`) -/

/-- Parsed NetBird status information (netbird.go: `netBirdStatusInfo`). -/
structure NetBirdStatusInfo where
  connected : Bool
  state : String
  localIP : String
deriving DecidableEq

/-- One iteration of the scanner loop in `parseNetBirdStatus`: processes a single
line of `netbird status` output, updating the accumulated info exactly as the
three independent `if` blocks in the source do. -/
def parseNetBirdLine (info : NetBirdStatusInfo) (rawLine : String) : NetBirdStatusInfo :=
  let line := trimSpace rawLine
  let low := strToLower line
  let info :=
    if strContains low "status:" then
      if strContains low "connected" then
        { info with connected := true, state := "Connected" }
      else if strContains low "disconnected" then
        { info with connected := false, state := "Disconnected" }
      else
        match splitN2 line ':' with
        | [_, rest] =>
          let st := trimSpace rest
          { info with state := st, connected := strContains (strToLower st) "connected" }
        | _ => info
    else info
  let info :=
    if strContains low "netbird ip:" || strContains low "local ip:" ||
        strContains low "interface ip:" then
      match splitN2 line ':' with
      | [_, rest] => { info with localIP := trimSpace rest }
      | _ => info
    else info
  let info :=
    if strContains low "management:" then
      if strContains low "connected" then
        { info with connected := true,
                    state := if info.state == "" then "Connected" else info.state }
      else info
    else info
  info

/-- Model of netbird.go `parseNetBirdStatus`: fold the line parser over the
output's lines, then apply the default-state fixup. -/
def parseNetBirdStatus (output : String) : NetBirdStatusInfo :=
  let info := (splitLines output).foldl parseNetBirdLine ⟨false, "", ""⟩
  if info.state == "" then
    if info.connected then { info with state := "Connected" }
    else { info with state := "Disconnected" }
  else info

/-! ## Backends, Registry and Detector (detector.go, lan.go, tailscale.go, …)

A Go `context.Context` is modelled by whether it has been cancelled; every
probe receives it, as in the source.  A `Backend` value (the Go interface) is
modelled by its observable behaviour: its name, its static priority, and its
probe/resolve functions.  Probe commands are environment effects, so for the
concrete variants (e.g. `LANBackend`) the environment-dependent probes are
parameters while code-fixed answers (such as LAN's `IsAvailable` returning
`true` unconditionally) are fixed. -/

/-- Model of `context.Context` as consumed by this code: only cancellation state. -/
structure Ctx where
  cancelled : Bool

/-- Errors a backend's `GetPeerIP` can produce (backend/tailscale.go error sentinels
plus free-form wrapped errors). -/
inductive PeerErr where
  | notConnected
  | peerNotFound
  | commandFailed
  | other (msg : String)
deriving DecidableEq

/-- Model of the Go `Backend` interface value. -/
structure BackendM where
  name : String
  priority : Int
  isAvailable : Ctx → Bool
  isConnected : Ctx → Bool
  getPeerIP : Ctx → String → Except PeerErr String

/-- Errors produced by detector.go (`fmt.Errorf` sites in DetectBest / Get /
SelectBackend).  There is deliberately no cancellation constructor: no code
path in detector.go constructs a context-cancellation error. -/
inductive DErr where
  | noAvailableBackends
  | backendNotFound (name : String)
  | backendNotAvailable (name : String)
deriving DecidableEq

/-- A `Registry` is a Go `map[string]Backend`; it is modelled by the list of its
entries in map-iteration order.  Go's map iteration order is unspecified, so
facts about the registry must either hold for every order of this list or are
refuted by exhibiting two orders that disagree. -/
def registryList (reg : List BackendM) : List BackendM :=
  reg

/-- Model of `Registry.Get`: map lookup by name (registries hold distinct names,
one entry per variant). -/
def registryGet (reg : List BackendM) (name : String) : Option BackendM :=
  reg.find? (fun b => b.name == name)

/-- The comparison `backends[i].Priority() > backends[j].Priority()` passed to
`sort.Slice` in DetectBest, as a `should come no later than` relation:
descending priority. -/
def backendLe (a b : BackendM) : Prop :=
  b.priority ≤ a.priority

instance : DecidableRel backendLe := fun a b =>
  inferInstanceAs (Decidable (b.priority ≤ a.priority))

instance : IsTotal BackendM backendLe :=
  ⟨fun a b => (Int.le_total b.priority a.priority).elim Or.inl Or.inr⟩

instance : IsTrans BackendM backendLe :=
  ⟨fun _ _ _ hab hbc => le_trans hbc hab⟩

/-- Model of the `sort.Slice(backends, …Priority() > Priority()…)` call in
DetectBest.  Go's sort is unstable; this model fixes the stable permutation,
which is one of the permutations Go may produce (for distinct priorities the
descending order is unique, so the model is exact there). -/
def sortByPriority (l : List BackendM) : List BackendM :=
  l.insertionSort backendLe

/-- The probe loop of `Detector.DetectBest`: walk the priority-sorted backends,
skip unavailable ones, accumulate available ones, and stop at the first
connected one.  Returns the accumulated `availableBackends` and the optional
`connectedBackend`. -/
def detectLoop (ctx : Ctx) : List BackendM → List BackendM → List BackendM × Option BackendM
  | [], avail => (avail, none)
  | b :: rest, avail =>
    if b.isAvailable ctx then
      if b.isConnected ctx then (avail ++ [b], some b)
      else detectLoop ctx rest (avail ++ [b])
    else detectLoop ctx rest avail

/-- Model of `Detector.DetectBest` (detector.go lines 21–57). -/
def detectBest (ctx : Ctx) (reg : List BackendM) : Except DErr BackendM :=
  let backends := sortByPriority (registryList reg)
  match detectLoop ctx backends [] with
  | (_, some c) => Except.ok c
  | (a :: _, none) => Except.ok a
  | ([], none) => Except.error DErr.noAvailableBackends

/-- Model of `Detector.SelectBackend` (detector.go lines 113–128). -/
def selectBackend (ctx : Ctx) (reg : List BackendM) (preference : String) :
    Except DErr BackendM :=
  if preference == "auto" || preference == "" then detectBest ctx reg
  else
    match registryGet reg preference with
    | none => Except.error (DErr.backendNotFound preference)
    | some b =>
      if b.isAvailable ctx then Except.ok b
      else Except.error (DErr.backendNotAvailable preference)

/-- Errors surfaced by `Detector.ResolveHost`: the nil-backend guard, or a
peer-resolution error passed through. -/
inductive ResolveHostErr where
  | nilBackend
  | peer (e : PeerErr)
deriving DecidableEq

/-- Model of `Detector.ResolveHost` (detector.go lines 131–149).  The fallback
constructs a fresh `LANBackend` and calls its `GetPeerIP` (DNS / literal-IP
resolution), an environment effect modelled by the `lanResolve` parameter. -/
def resolveHost (lanResolve : Ctx → String → Except PeerErr String) (ctx : Ctx)
    (backend : Option BackendM) (hostname : String) : Except ResolveHostErr String :=
  match backend with
  | none => Except.error ResolveHostErr.nilBackend
  | some b =>
    match b.getPeerIP ctx hostname with
    | Except.ok ip => Except.ok ip
    | Except.error e =>
      if b.name != "lan" then
        match lanResolve ctx hostname with
        | Except.ok lanIP => Except.ok lanIP
        | Except.error _ => Except.error (ResolveHostErr.peer e)
      else Except.error (ResolveHostErr.peer e)

/-- Model of `LANBackend` (lan.go): `Name` is "lan", `Priority` is 10, and
`IsAvailable` returns `true` unconditionally, ignoring the context.
`IsConnected` inspects the host's network interfaces and `GetPeerIP` performs
DNS resolution — environment effects, passed as parameters. -/
def lanBackend (lanConnected : Ctx → Bool)
    (lanResolve : Ctx → String → Except PeerErr String) : BackendM :=
  { name := "lan", priority := 10, isAvailable := fun _ => true,
    isConnected := lanConnected, getPeerIP := lanResolve }

/-! ## Host-key trust store (internal/ssh/hostkeys.go)

The known_hosts file is a line-oriented store; `AddKnownHost` appends the line
`knownhosts.Line([hostname], key)`, i.e. `hostname keyType base64Material`.
The store is modelled structurally as the list of those entries, in file
order; `RemoveKnownHost`, which works on the raw text lines, is additionally
modelled on raw lines below for claim C10. -/

/-- A presented SSH public key, by its observable fields: `key.Type()` (the
algorithm token) and its marshalled material. -/
structure PubKey where
  alg : String
  material : String
deriving DecidableEq

/-- One line of the known_hosts store, as written by `knownhosts.Line([hostname], key)`. -/
structure TrustEntry where
  host : String
  alg : String
  material : String
deriving DecidableEq

/-- The entry `AddKnownHost hostname key` appends. -/
def entryOf (hostname : String) (key : PubKey) : TrustEntry :=
  ⟨hostname, key.alg, key.material⟩

/-- The raw text of a store line (used by `RemoveKnownHost`, which filters raw lines). -/
def lineOf (e : TrustEntry) : String :=
  e.host ++ " " ++ e.alg ++ " " ++ e.material

/-- Model of `AddKnownHost` (hostkeys.go lines 116–138): append the formatted
line to the store, unconditionally. -/
def addKnownHost (store : List TrustEntry) (hostname : String) (key : PubKey) :
    List TrustEntry :=
  store ++ [entryOf hostname key]

/-- Model of `RemoveKnownHost` (hostkeys.go lines 190–226) on the structured
store: keep exactly the lines that do not contain `hostname` as a substring
(`strings.Contains` on the raw line). -/
def removeKnownHostEntries (store : List TrustEntry) (hostname : String) :
    List TrustEntry :=
  store.filter (fun e => !(strContains (lineOf e) hostname))

/-- Result of the `x/crypto/ssh/knownhosts` callback on the klip store, whose
lines are all plain `host keytype material` lines: either the presented key
matches an entry for the hostname, or a `KeyError` whose `Want` field lists
the stored keys for that hostname (`Want` is empty exactly when the hostname
is unknown). -/
inductive KHResult where
  | ok
  | keyErr (want : List TrustEntry)
deriving DecidableEq

/-- Entries of the store whose host pattern matches the hostname being verified. -/
def entriesFor (store : List TrustEntry) (hostname : String) : List TrustEntry :=
  store.filter (fun e => e.host == hostname)

/-- Model of the `knownhosts.New`-produced callback applied to `(hostname, key)`:
success iff some entry for the hostname carries exactly the presented key,
otherwise a `KeyError` carrying the hostname's stored keys as `Want`. -/
def khCheck (store : List TrustEntry) (hostname : String) (key : PubKey) : KHResult :=
  let want := entriesFor store hostname
  if want.any (fun e => e.alg == key.alg && e.material == key.material) then KHResult.ok
  else KHResult.keyErr want

/-- The first-contact decision read from standard input in the callback
(`yes` accepts; anything else rejects). -/
inductive Decision where
  | accept
  | reject
deriving DecidableEq

/-- Errors the host-key callback returns.  Each constructor is one distinct
error production in `NewHostKeyCallback`; `mismatchWarning` is the
fmt.Errorf carrying the REMOTE HOST IDENTIFICATION HAS CHANGED warning,
rendered from the presented key's type and fingerprint. -/
inductive VerifyErr where
  | mismatchWarning (presented : PubKey)
  | userRejected
deriving DecidableEq

/-- Outcome of one invocation of the callback `NewHostKeyCallback` returns:
the verification result, the store after the call, and whether the
interactive first-contact prompt was consulted. -/
structure VerifyOutcome where
  result : Except VerifyErr Unit
  store : List TrustEntry
  prompted : Bool

/-- Model of the callback built by `NewHostKeyCallback` (hostkeys.go lines
56–113): check the store; on a match succeed; on a `KeyError` with non-empty
`Want` fail with the mismatch warning without touching the store; on an
unknown host consult the first-contact prompt and, on acceptance, persist the
entry via `AddKnownHost`.  The prompt decision is the injected `decision`
parameter (the source reads it from standard input). -/
def hostKeyCallback (store : List TrustEntry) (hostname : String) (key : PubKey)
    (decision : Decision) : VerifyOutcome :=
  match khCheck store hostname key with
  | KHResult.ok => ⟨Except.ok (), store, false⟩
  | KHResult.keyErr want =>
    if want.length > 0 then
      ⟨Except.error (VerifyErr.mismatchWarning key), store, false⟩
    else
      match decision with
      | Decision.reject => ⟨Except.error VerifyErr.userRejected, store, true⟩
      | Decision.accept => ⟨Except.ok (), addKnownHost store hostname key, true⟩

/-! ### Sequences of store operations (for the per-(hostname, keyAlgorithm) invariant) -/

/-- A store operation: a verification through the callback (with the user's
first-contact decision), a direct `AddKnownHost`, or a `RemoveKnownHost`. -/
inductive StoreOp where
  | verify (hostname : String) (key : PubKey) (decision : Decision)
  | add (hostname : String) (key : PubKey)
  | remove (hostname : String)

/-- Apply one store operation to the persisted store. -/
def applyOp (store : List TrustEntry) : StoreOp → List TrustEntry
  | StoreOp.verify h k d => (hostKeyCallback store h k d).store
  | StoreOp.add h k => addKnownHost store h k
  | StoreOp.remove h => removeKnownHostEntries store h

/-- Apply a sequence of store operations, left to right. -/
def applyOps (store : List TrustEntry) : List StoreOp → List TrustEntry
  | [] => store
  | op :: rest => applyOps (applyOp store op) rest

/-- The §3 invariant: at most one accepted entry per (hostname, keyAlgorithm) pair. -/
def AtMostOnePerPair (store : List TrustEntry) : Prop :=
  ∀ h a, (store.filter (fun e => e.host == h && e.alg == a)).length ≤ 1

/-! ### Raw-line model of RemoveKnownHost (for claim C10)

`RemoveKnownHost` itself never parses lines: it keeps exactly the raw text
lines that do not contain the hostname as a substring. -/

/-- Model of `RemoveKnownHost` on the raw lines of the known_hosts file. -/
def removeKnownHostLines (lines : List String) (hostname : String) : List String :=
  lines.filter (fun l => !(strContains l hostname))

/-- Whether a store operation is a direct `AddKnownHost`. -/
def isAdd : StoreOp → Bool
  | StoreOp.add _ _ => true
  | _ => false

/-! ## Concrete fixtures (mock backends in the style of detector_test.go, and
concrete stores) used by the closed evaluations and witnesses below -/

/-- A mock backend with constant probe answers (detector_test.go `MockBackend`). -/
def mkMock (name : String) (priority : Int) (av cn : Bool) : BackendM :=
  { name := name, priority := priority,
    isAvailable := fun _ => av, isConnected := fun _ => cn,
    getPeerIP := fun _ _ => Except.error PeerErr.peerNotFound }

/-- Mock with the Tailscale variant's name and priority (tailscale.go: 40), up. -/
def tsMock : BackendM := mkMock "tailscale" 40 true true

/-- Mock with the Headscale variant's name and priority (headscale.go: also 40), up. -/
def hsMock : BackendM := mkMock "headscale" 40 true true

/-- An installed-but-not-required mock that is not available. -/
def offMock : BackendM := mkMock "offline" 20 false true

/-- An available mock that is not connected. -/
def idleMock : BackendM := mkMock "idle" 35 true false

/-- A resolver that never finds a peer. -/
def deadResolver : Ctx → String → Except PeerErr String :=
  fun _ _ => Except.error PeerErr.peerNotFound

/-- A NetBird-named mock whose peer lookup always fails. -/
def nbFailMock : BackendM :=
  { name := "netbird", priority := 50,
    isAvailable := fun _ => true, isConnected := fun _ => true,
    getPeerIP := fun _ _ => Except.error PeerErr.peerNotFound }

/-- A LAN/DNS environment that resolves exactly the hostname "db1". -/
def lanDb1Resolve : Ctx → String → Except PeerErr String :=
  fun _ hn => if hn == "db1" then Except.ok "192.168.1.7" else Except.error PeerErr.peerNotFound

/-- A store holding one accepted key for host "db1". -/
def demoStore : List TrustEntry := [⟨"db1", "ssh-ed25519", "AAAA"⟩]

/-- Two direct `AddKnownHost` calls for the same (hostname, keyAlgorithm) with
different key material. -/
def c6Ops : List StoreOp :=
  [StoreOp.add "db1" ⟨"ssh-ed25519", "AAAA"⟩, StoreOp.add "db1" ⟨"ssh-ed25519", "BBBB"⟩]

/-- The store those two additions produce. -/
def c6Store : List TrustEntry := applyOps [] c6Ops

/-- An add-free operation sequence: two verifications and a removal. -/
def c6WitnessOps : List StoreOp :=
  [StoreOp.verify "db1" ⟨"ssh-ed25519", "AAAA"⟩ Decision.accept,
   StoreOp.verify "db1" ⟨"ssh-ed25519", "BBBB"⟩ Decision.accept,
   StoreOp.remove "db1"]

/-! ## Helper lemmas about the detector -/

lemma sorted_sortByPriority (l : List BackendM) : (sortByPriority l).Sorted backendLe :=
  List.sorted_insertionSort backendLe l

lemma mem_sortByPriority {b : BackendM} {l : List BackendM} :
    b ∈ sortByPriority l ↔ b ∈ l :=
  (List.perm_insertionSort backendLe l).mem_iff

/-- The probe loop returns `none` exactly when no available backend is connected;
then `availableBackends` is the accumulator followed by the available backends
in scan order. -/
lemma detectLoop_none (ctx : Ctx) :
    ∀ (l acc out : List BackendM), detectLoop ctx l acc = (out, none) →
      out = acc ++ l.filter (fun b => b.isAvailable ctx) ∧
      ∀ x ∈ l, x.isAvailable ctx = true → x.isConnected ctx = false
  | [], acc, out, h => by
    simp only [detectLoop, Prod.mk.injEq] at h
    simp [← h.1]
  | b :: rest, acc, out, h => by
    by_cases hav : b.isAvailable ctx
    · by_cases hcn : b.isConnected ctx
      · simp [detectLoop, hav, hcn] at h
      · simp only [detectLoop, hav, hcn, if_true, if_false] at h
        obtain ⟨h1, h2⟩ := detectLoop_none ctx rest (acc ++ [b]) out h
        refine ⟨?_, ?_⟩
        · simp [h1, List.filter_cons, hav]
        · intro x hx hxa
          rcases List.mem_cons.1 hx with rfl | hx'
          · exact Bool.not_eq_true _ ▸ hcn
          · exact h2 x hx' hxa
    · simp only [detectLoop, hav, if_false] at h
      obtain ⟨h1, h2⟩ := detectLoop_none ctx rest acc out h
      refine ⟨?_, ?_⟩
      · simp [h1, List.filter_cons, hav]
      · intro x hx hxa
        rcases List.mem_cons.1 hx with rfl | hx'
        · exact absurd hxa (by simpa using hav)
        · exact h2 x hx' hxa

/-- When the probe loop stops at a connected backend on a priority-sorted list,
that backend is available, connected, and of maximal priority among the
available-and-connected backends of the list. -/
lemma detectLoop_some (ctx : Ctx) :
    ∀ (l acc out : List BackendM) (b : BackendM), l.Sorted backendLe →
      detectLoop ctx l acc = (out, some b) →
      b ∈ l ∧ b.isAvailable ctx = true ∧ b.isConnected ctx = true ∧
      ∀ x ∈ l, x.isAvailable ctx = true → x.isConnected ctx = true →
        x.priority ≤ b.priority
  | [], acc, out, b, _, h => by simp [detectLoop] at h
  | hd :: rest, acc, out, b, hs, h => by
    obtain ⟨hhd, hrest⟩ := List.sorted_cons.1 hs
    by_cases hav : hd.isAvailable ctx
    · by_cases hcn : hd.isConnected ctx
      · simp only [detectLoop, hav, hcn, if_true, Prod.mk.injEq, Option.some.injEq] at h
        obtain ⟨-, rfl⟩ := h
        refine ⟨List.mem_cons_self _ _, by simpa using hav, by simpa using hcn, ?_⟩
        intro x hx _ _
        rcases List.mem_cons.1 hx with rfl | hx'
        · exact le_refl _
        · exact hhd x hx'
      · simp only [detectLoop, hav, hcn, if_true, if_false] at h
        obtain ⟨hmem, h1, h2, h3⟩ := detectLoop_some ctx rest (acc ++ [hd]) out b hrest h
        refine ⟨List.mem_cons_of_mem _ hmem, h1, h2, ?_⟩
        intro x hx hxa hxc
        rcases List.mem_cons.1 hx with rfl | hx'
        · exact absurd hxc (by simpa using hcn)
        · exact h3 x hx' hxa hxc
    · simp only [detectLoop, hav, if_false] at h
      obtain ⟨hmem, h1, h2, h3⟩ := detectLoop_some ctx rest acc out b hrest h
      refine ⟨List.mem_cons_of_mem _ hmem, h1, h2, ?_⟩
      intro x hx hxa hxc
      rcases List.mem_cons.1 hx with rfl | hx'
      · exact absurd hxa (by simpa using hav)
      · exact h3 x hx' hxa hxc

/-- On a priority-sorted list, the head of a filter is a maximal-priority
element among those satisfying the filter. -/
lemma sorted_filter_head (p : BackendM → Bool) :
    ∀ (l : List BackendM) (b : BackendM) (tl : List BackendM), l.Sorted backendLe →
      l.filter p = b :: tl →
      b ∈ l ∧ p b = true ∧ ∀ x ∈ l, p x = true → x.priority ≤ b.priority
  | [], b, tl, _, h => by simp at h
  | hd :: rest, b, tl, hs, h => by
    obtain ⟨hhd, hrest⟩ := List.sorted_cons.1 hs
    by_cases hp : p hd
    · simp only [List.filter_cons, hp, if_true, List.cons.injEq] at h
      obtain ⟨rfl, -⟩ := h
      refine ⟨List.mem_cons_self _ _, hp, ?_⟩
      intro x hx _
      rcases List.mem_cons.1 hx with rfl | hx'
      · exact le_refl _
      · exact hhd x hx'
    · simp only [List.filter_cons, hp, if_false] at h
      obtain ⟨hmem, hpb, hmax⟩ := sorted_filter_head p rest b tl hrest h
      refine ⟨List.mem_cons_of_mem _ hmem, hpb, ?_⟩
      intro x hx hxp
      rcases List.mem_cons.1 hx with rfl | hx'
      · exact absurd hxp hp
      · exact hmax x hx' hxp

/-- C3: For every registry of backends with pairwise distinct priorities,
`DetectBest` returns the highest-priority backend among those that are
available and connected if any such backend exists; otherwise the
highest-priority backend among those that are available; otherwise the
no-backend-available error.  Unavailable backends are never returned. -/
theorem C3_detectBest_policy (ctx : Ctx) (reg : List BackendM)
    (hdist : reg.Pairwise (fun a b => a.priority ≠ b.priority)) :
    ((∃ x ∈ reg, x.isAvailable ctx = true ∧ x.isConnected ctx = true) →
      ∃ b, detectBest ctx reg = Except.ok b ∧ b ∈ reg ∧ b.isAvailable ctx = true ∧
        b.isConnected ctx = true ∧
        ∀ x ∈ reg, x.isAvailable ctx = true → x.isConnected ctx = true →
          x.priority ≤ b.priority) ∧
    ((¬ ∃ x ∈ reg, x.isAvailable ctx = true ∧ x.isConnected ctx = true) →
      (∃ x ∈ reg, x.isAvailable ctx = true) →
      ∃ b, detectBest ctx reg = Except.ok b ∧ b ∈ reg ∧ b.isAvailable ctx = true ∧
        ∀ x ∈ reg, x.isAvailable ctx = true → x.priority ≤ b.priority) ∧
    ((¬ ∃ x ∈ reg, x.isAvailable ctx = true) →
      detectBest ctx reg = Except.error DErr.noAvailableBackends) := by
  clear hdist
  have hsort := sorted_sortByPriority (registryList reg)
  rcases hloop : detectLoop ctx (sortByPriority (registryList reg)) [] with ⟨out, oc⟩
  cases oc with
  | some c =>
    obtain ⟨hmem, hav, hcn, hmax⟩ := detectLoop_some ctx _ [] out c hsort hloop
    have hbest : detectBest ctx reg = Except.ok c := by simp [detectBest, hloop]
    have hmem' : c ∈ reg := mem_sortByPriority.1 hmem
    exact ⟨fun _ => ⟨c, hbest, hmem', hav, hcn,
        fun x hx hxa hxc => hmax x (mem_sortByPriority.2 hx) hxa hxc⟩,
      fun hno _ => absurd ⟨c, hmem', hav, hcn⟩ hno,
      fun hno => absurd ⟨c, hmem', hav⟩ hno⟩
  | none =>
    obtain ⟨hout, hnc⟩ := detectLoop_none ctx _ [] out hloop
    rw [List.nil_append] at hout
    cases out with
    | nil =>
      have hnil : ∀ x ∈ sortByPriority (registryList reg), ¬ x.isAvailable ctx = true := by
        rw [← List.filter_eq_nil_iff]
        exact hout.symm
      have hbest : detectBest ctx reg = Except.error DErr.noAvailableBackends := by
        simp [detectBest, hloop]
      refine ⟨?_, ?_, fun _ => hbest⟩
      · rintro ⟨x, hx, hxa, -⟩
        exact absurd hxa (hnil x (mem_sortByPriority.2 hx))
      · rintro - ⟨x, hx, hxa⟩
        exact absurd hxa (hnil x (mem_sortByPriority.2 hx))
    | cons a tl =>
      obtain ⟨hmem, hav, hmax⟩ :=
        sorted_filter_head (fun b => b.isAvailable ctx) _ a tl hsort hout.symm
      have hbest : detectBest ctx reg = Except.ok a := by simp [detectBest, hloop]
      have hmem' : a ∈ reg := mem_sortByPriority.1 hmem
      refine ⟨?_, ?_, ?_⟩
      · rintro ⟨x, hx, hxa, hxc⟩
        exact absurd hxc
          (Bool.not_eq_true _ ▸ hnc x (mem_sortByPriority.2 hx) hxa)
      · intro _ _
        exact ⟨a, hbest, hmem', hav,
          fun x hx hxa => hmax x (mem_sortByPriority.2 hx) hxa⟩
      · intro hno
        exact absurd ⟨a, hmem', hav⟩ hno

/-- C3 witness: the three-backend scenario of spec §8 — `low` (priority 10,
available, connected), `mid` (priority 30, available, not connected), `high`
(priority 50, unavailable) — where the policy must return `low`. -/
theorem C3_detectBest_policy_witness :
    detectBest ⟨false⟩ [mkMock "low" 10 true true, mkMock "mid" 30 true false,
      mkMock "high" 50 false false] = Except.ok (mkMock "low" 10 true true) := by
  obtain ⟨h1, -, -⟩ := C3_detectBest_policy ⟨false⟩
    [mkMock "low" 10 true true, mkMock "mid" 30 true false, mkMock "high" 50 false false]
    (by simp [mkMock])
  obtain ⟨b, hb, hmem, hav, hcn, -⟩ := h1 ⟨mkMock "low" 10 true true, by simp, rfl, rfl⟩
  simp only [List.mem_cons, List.not_mem_nil, or_false] at hmem
  rcases hmem with rfl | rfl | rfl
  · exact hb
  · exact absurd hcn (by simp [mkMock])
  · exact absurd hav (by simp [mkMock])

/-- C2: the code's `Registry.List` returns the backends in Go map-iteration
order with no sorting by name, and `DetectBest` sorts only by priority, so
with the registry's actual priority tie (tailscale = headscale = 40) the
selected backend depends on the map-iteration order: the two orders of the
same two-backend registry select different backends. -/
theorem C2_tie_break_depends_on_iteration_order :
    registryList [tsMock, hsMock] = [tsMock, hsMock] ∧
    registryList [hsMock, tsMock] = [hsMock, tsMock] ∧
    tsMock.priority = hsMock.priority ∧
    tsMock.name ≠ hsMock.name ∧
    detectBest ⟨false⟩ [tsMock, hsMock] = Except.ok tsMock ∧
    detectBest ⟨false⟩ [hsMock, tsMock] = Except.ok hsMock :=
  ⟨rfl, rfl, rfl, by decide, rfl, rfl⟩

/-- C9: `DetectBest` never consults the context's cancellation state and no
code path in detector.go constructs a cancellation error: with a context that
is already cancelled, a registry holding the LAN backend (whose `IsAvailable`
ignores the context and returns true) still yields the LAN backend — whether
or not its interface probe reports connectivity — rather than a cancellation
error. -/
theorem C9_cancelled_context_still_selects_backend :
    detectBest ⟨true⟩ [lanBackend (fun _ => false) deadResolver] =
      Except.ok (lanBackend (fun _ => false) deadResolver) ∧
    detectBest ⟨true⟩ [lanBackend (fun _ => true) deadResolver] =
      Except.ok (lanBackend (fun _ => true) deadResolver) :=
  ⟨rfl, rfl⟩

/-- C7: `SelectBackend` with preference "auto" or "" behaves exactly as
`DetectBest`; for any other preference it returns the named backend iff that
name is registered and its `IsAvailable` probe answers true (its
`IsConnected` value plays no role), it fails with the named-backend-unavailable
error when the backend is registered but unavailable, and for an unregistered
name it fails with the backend-not-found error, the outcome depending only on
the registered names, never on any probe. -/
theorem C7_selectBackend_spec (ctx : Ctx) (reg : List BackendM) (pref : String) :
    (selectBackend ctx reg "auto" = detectBest ctx reg) ∧
    (selectBackend ctx reg "" = detectBest ctx reg) ∧
    (pref ≠ "auto" → pref ≠ "" → ∀ b, registryGet reg pref = some b →
      selectBackend ctx reg pref =
        (if b.isAvailable ctx then Except.ok b
         else Except.error (DErr.backendNotAvailable pref))) ∧
    (pref ≠ "auto" → pref ≠ "" → (∀ b ∈ reg, b.name ≠ pref) →
      selectBackend ctx reg pref = Except.error (DErr.backendNotFound pref)) := by
  refine ⟨by simp [selectBackend], by simp [selectBackend], ?_, ?_⟩
  · intro h1 h2 b hb
    have hcond : (pref == "auto" || pref == "") = false := by simp [h1, h2]
    simp [selectBackend, hcond, hb]
  · intro h1 h2 h3
    have hcond : (pref == "auto" || pref == "") = false := by simp [h1, h2]
    have hget : registryGet reg pref = none := by
      rw [registryGet, List.find?_eq_none]
      intro b hb
      simp [h3 b hb]
    simp [selectBackend, hcond, hget]

/-- C7 witness: on a registry with an available-but-not-connected backend and
an unavailable one, explicit selection succeeds for the idle backend, fails
as unavailable for the offline one, and fails as not-found for an
unregistered name. -/
theorem C7_selectBackend_spec_witness :
    selectBackend ⟨false⟩ [idleMock, offMock] "idle" = Except.ok idleMock ∧
    selectBackend ⟨false⟩ [idleMock, offMock] "offline" =
      Except.error (DErr.backendNotAvailable "offline") ∧
    selectBackend ⟨false⟩ [idleMock, offMock] "netbird" =
      Except.error (DErr.backendNotFound "netbird") := by
  refine ⟨?_, ?_, ?_⟩
  · have h := (C7_selectBackend_spec ⟨false⟩ [idleMock, offMock] "idle").2.2.1
      (by decide) (by decide) idleMock rfl
    simpa [idleMock, mkMock] using h
  · have h := (C7_selectBackend_spec ⟨false⟩ [idleMock, offMock] "offline").2.2.1
      (by decide) (by decide) offMock rfl
    simpa [offMock, mkMock] using h
  · exact (C7_selectBackend_spec ⟨false⟩ [idleMock, offMock] "netbird").2.2.2
      (by decide) (by decide) (by decide)

/-- C8: `ResolveHost` returns the backend's own peer address when `GetPeerIP`
succeeds; when it fails on a non-LAN backend, the LAN/DNS fallback's result is
returned only if that fallback succeeds, otherwise the original
backend-specific error is surfaced; and for the LAN backend no fallback is
attempted — the original error is returned regardless of the fallback
environment. -/
theorem C8_resolveHost_spec (lanResolve : Ctx → String → Except PeerErr String) (ctx : Ctx)
    (b : BackendM) (h : String) :
    (∀ ip, b.getPeerIP ctx h = Except.ok ip →
      resolveHost lanResolve ctx (some b) h = Except.ok ip) ∧
    (∀ e ip, b.getPeerIP ctx h = Except.error e → b.name ≠ "lan" →
      lanResolve ctx h = Except.ok ip →
      resolveHost lanResolve ctx (some b) h = Except.ok ip) ∧
    (∀ e e', b.getPeerIP ctx h = Except.error e → b.name ≠ "lan" →
      lanResolve ctx h = Except.error e' →
      resolveHost lanResolve ctx (some b) h = Except.error (ResolveHostErr.peer e)) ∧
    (∀ e, b.getPeerIP ctx h = Except.error e → b.name = "lan" →
      resolveHost lanResolve ctx (some b) h = Except.error (ResolveHostErr.peer e)) := by
  refine ⟨?_, ?_, ?_, ?_⟩
  · intro ip hip
    simp [resolveHost, hip]
  · intro e ip he hname hlan
    simp [resolveHost, he, hname, hlan]
  · intro e e' he hname hlan
    simp [resolveHost, he, hname, hlan]
  · intro e he hname
    simp [resolveHost, he, hname]

/-- C8 witness: the §8 scenario — a non-LAN backend whose peer lookup for
"db1" fails while LAN/DNS resolution of "db1" succeeds — yields the
LAN-resolved address, and the same failing lookup on the LAN backend yields
the original error. -/
theorem C8_resolveHost_spec_witness :
    resolveHost lanDb1Resolve ⟨false⟩ (some nbFailMock) "db1" = Except.ok "192.168.1.7" ∧
    resolveHost lanDb1Resolve ⟨false⟩ (some (lanBackend (fun _ => true) deadResolver)) "db1" =
      Except.error (ResolveHostErr.peer PeerErr.peerNotFound) := by
  constructor
  · exact (C8_resolveHost_spec lanDb1Resolve ⟨false⟩ nbFailMock "db1").2.1
      PeerErr.peerNotFound "192.168.1.7" rfl (by decide) rfl
  · exact (C8_resolveHost_spec lanDb1Resolve ⟨false⟩
      (lanBackend (fun _ => true) deadResolver) "db1").2.2.2
      PeerErr.peerNotFound rfl rfl

/-! ## Helper lemmas about the trust store -/

lemma length_filter_mono {α : Type} (p q : α → Bool) (himp : ∀ x, p x = true → q x = true) :
    ∀ l : List α, (l.filter p).length ≤ (l.filter q).length
  | [] => le_refl 0
  | a :: l => by
    by_cases hp : p a
    · have hq := himp a hp
      simpa [List.filter_cons, hp, hq] using
        Nat.succ_le_succ (length_filter_mono p q himp l)
    · by_cases hq : q a
      · simp only [List.filter_cons, hp, hq, if_true, if_false, List.length_cons]
        exact Nat.le_succ_of_le (length_filter_mono p q himp l)
      · simpa [List.filter_cons, hp, hq] using length_filter_mono p q himp l

lemma atMostOne_sublist {s t : List TrustEntry} (hsub : s.Sublist t)
    (hwf : AtMostOnePerPair t) : AtMostOnePerPair s := fun h a =>
  le_trans (List.Sublist.length_le (hsub.filter _)) (hwf h a)

/-- Appending an entry for a hostname that has no entries at all preserves the
at-most-one-per-(hostname, keyAlgorithm) invariant. -/
lemma atMostOne_append_new (store : List TrustEntry) (h : String) (k : PubKey)
    (hwf : AtMostOnePerPair store) (hnil : entriesFor store h = []) :
    AtMostOnePerPair (store ++ [entryOf h k]) := by
  intro h' a'
  rw [List.filter_append, List.length_append]
  by_cases hh : h' = h
  · have hnil' : store.filter (fun e => e.host == h') = [] := by
      rw [hh]
      exact hnil
    have hmono := length_filter_mono (fun e : TrustEntry => e.host == h' && e.alg == a')
      (fun e : TrustEntry => e.host == h')
      (fun x hx => by
        simp only [Bool.and_eq_true] at hx
        exact hx.1)
      store
    have hz : (store.filter (fun e => e.host == h')).length = 0 := by simp [hnil']
    have hone : ([entryOf h k].filter (fun e => e.host == h' && e.alg == a')).length ≤ 1 := by
      rw [List.filter_cons]
      split <;> simp
    omega
  · have hfalse : ((entryOf h k).host == h' && (entryOf h k).alg == a') = false := by
      have hne : (h == h') = false := beq_eq_false_iff_ne.2 (fun he => hh he.symm)
      simp [entryOf, hne]
    have hzero : ([entryOf h k].filter (fun e => e.host == h' && e.alg == a')).length = 0 := by
      simp [List.filter_cons, hfalse]
    rw [hzero]
    have := hwf h' a'
    omega

/-- The callback changes the store only in the unknown-host accept branch, and
then only by appending the presented key's entry for a hostname that had no
entries at all. -/
lemma hostKeyCallback_store_cases (store : List TrustEntry) (h : String) (k : PubKey)
    (d : Decision) :
    (hostKeyCallback store h k d).store = store ∨
    ((hostKeyCallback store h k d).store = store ++ [entryOf h k] ∧
      entriesFor store h = []) := by
  unfold hostKeyCallback khCheck
  by_cases hany : (entriesFor store h).any
      (fun e => e.alg == k.alg && e.material == k.material)
  · simp [hany]
  · by_cases hlen : 0 < (entriesFor store h).length
    · simp [hany, hlen]
    · have hnil : entriesFor store h = [] :=
        List.length_eq_zero.1 (Nat.eq_zero_of_not_pos hlen)
      cases d with
      | accept => simp [hany, hlen, hnil, addKnownHost]
      | reject => simp [hany, hlen]

/-- C1: with a trusted key stored for a hostname, presenting any key that
matches no stored entry for that hostname fails with the mismatch-warning
error — a result distinct from the unknown-host outcomes — and leaves the
store untouched without consulting the first-contact prompt. -/
theorem C1_mismatch_fails_closed (store : List TrustEntry) (h : String) (k2 : PubKey)
    (d : Decision)
    (hknown : entriesFor store h ≠ [])
    (hdiff : ∀ e ∈ entriesFor store h, ¬(e.alg = k2.alg ∧ e.material = k2.material)) :
    hostKeyCallback store h k2 d =
      ⟨Except.error (VerifyErr.mismatchWarning k2), store, false⟩ ∧
    VerifyErr.mismatchWarning k2 ≠ VerifyErr.userRejected := by
  constructor
  · have hany : (entriesFor store h).any
        (fun e => e.alg == k2.alg && e.material == k2.material) = false := by
      simp only [List.any_eq_false, Bool.and_eq_true, beq_iff_eq, not_and]
      intro e he ha hm
      exact hdiff e he ⟨ha, hm⟩
    have hlen : 0 < (entriesFor store h).length := List.length_pos.2 hknown
    simp [hostKeyCallback, khCheck, hany, hlen]
  · simp

/-- C1 witness: key "BBBB" presented for host "db1" whose stored key is
"AAAA" is rejected with the mismatch warning, the store is unchanged, and the
prompt is not consulted. -/
theorem C1_mismatch_fails_closed_witness :
    hostKeyCallback demoStore "db1" ⟨"ssh-ed25519", "BBBB"⟩ Decision.accept =
      ⟨Except.error (VerifyErr.mismatchWarning ⟨"ssh-ed25519", "BBBB"⟩), demoStore, false⟩ :=
  (C1_mismatch_fails_closed demoStore "db1" ⟨"ssh-ed25519", "BBBB"⟩ Decision.accept
    (by decide) (by decide)).1

/-- C5: for a hostname with no stored entry, accepting the first-contact
prompt succeeds and persists the entry, and an immediately subsequent
verification of the same (hostname, key) pair succeeds on the stored entry
without consulting the prompt, whatever decision the prompt would give. -/
theorem C5_tofu_round_trip (store : List TrustEntry) (h : String) (k : PubKey)
    (d : Decision)
    (hunknown : ∀ e ∈ store, e.host ≠ h) :
    hostKeyCallback store h k Decision.accept =
      ⟨Except.ok (), store ++ [entryOf h k], true⟩ ∧
    hostKeyCallback (store ++ [entryOf h k]) h k d =
      ⟨Except.ok (), store ++ [entryOf h k], false⟩ := by
  have hnil : entriesFor store h = [] := by
    rw [entriesFor, List.filter_eq_nil_iff]
    intro e he
    simp [hunknown e he]
  constructor
  · simp [hostKeyCallback, khCheck, hnil, addKnownHost]
  · have hany : (entriesFor (store ++ [entryOf h k]) h).any
        (fun e => e.alg == k.alg && e.material == k.material) = true := by
      rw [entriesFor, List.filter_append]
      rw [entriesFor] at hnil
      simp [hnil, entryOf]
    simp [hostKeyCallback, khCheck, hany]

/-- C5 witness: accepting "db1"'s key on an empty store persists it; the
immediate re-verification succeeds silently even under a rejecting prompt. -/
theorem C5_tofu_round_trip_witness :
    hostKeyCallback [] "db1" ⟨"ssh-ed25519", "AAAA"⟩ Decision.accept =
      ⟨Except.ok (), [entryOf "db1" ⟨"ssh-ed25519", "AAAA"⟩], true⟩ ∧
    hostKeyCallback [entryOf "db1" ⟨"ssh-ed25519", "AAAA"⟩] "db1"
      ⟨"ssh-ed25519", "AAAA"⟩ Decision.reject =
      ⟨Except.ok (), [entryOf "db1" ⟨"ssh-ed25519", "AAAA"⟩], false⟩ := by
  have h := C5_tofu_round_trip [] "db1" ⟨"ssh-ed25519", "AAAA"⟩ Decision.reject (by simp)
  exact ⟨by simpa using h.1, by simpa using h.2⟩

/-- C6 counterexample: two direct `AddKnownHost` calls for the same
(hostname, keyAlgorithm) pair with different key material leave two coexisting
accepted entries in the store — no conflict is reported and neither entry
replaces the other — so the claimed invariant fails for sequences that
include direct additions. -/
theorem C6_counterexample :
    (c6Store.filter (fun e => e.host == "db1" && e.alg == "ssh-ed25519")).length = 2 ∧
    ¬ AtMostOnePerPair c6Store :=
  ⟨by decide, fun hinv => absurd (hinv "db1" "ssh-ed25519") (by decide)⟩

/-- C6 (amended): after any sequence of verification-callback and removal
operations starting from a store satisfying the invariant, the store still
holds at most one accepted entry per (hostname, keyAlgorithm) pair — the
callback persists a key only for a hostname with no entries at all and
reports a differing key as a mismatch without altering the store; direct
`AddKnownHost` calls, which append unconditionally, are excluded. -/
theorem C6_amended_invariant (store : List TrustEntry) (ops : List StoreOp)
    (hwf : AtMostOnePerPair store) (hops : ∀ op ∈ ops, isAdd op = false) :
    AtMostOnePerPair (applyOps store ops) := by
  induction ops generalizing store with
  | nil => exact hwf
  | cons op rest ih =>
    have hop := hops op (List.mem_cons_self _ _)
    have hrest : ∀ o ∈ rest, isAdd o = false := fun o ho => hops o (List.mem_cons_of_mem _ ho)
    refine ih (applyOp store op) ?_ hrest
    cases op with
    | verify h k d =>
      rcases hostKeyCallback_store_cases store h k d with hc | ⟨hc, hnil⟩
      · show AtMostOnePerPair (hostKeyCallback store h k d).store
        rw [hc]
        exact hwf
      · show AtMostOnePerPair (hostKeyCallback store h k d).store
        rw [hc]
        exact atMostOne_append_new store h k hwf hnil
    | add h k => exact absurd hop (by simp [isAdd])
    | remove h => exact atMostOne_sublist (List.filter_sublist _) hwf

/-- C6 witness: an add-free sequence — accept "db1", then a conflicting
verification (rejected as a mismatch), then removal — keeps the invariant. -/
theorem C6_amended_invariant_witness :
    AtMostOnePerPair (applyOps [] c6WitnessOps) :=
  C6_amended_invariant [] c6WitnessOps (fun _ _ => by simp) (by decide)

/-- C10: `RemoveKnownHost` filters raw stored lines by substring: after the
call no line containing the hostname anywhere remains, lines not containing
it are kept, and every line containing it — including lines of other
hostnames that merely contain it as a substring — is deleted. -/
theorem C10_remove_by_substring (lines : List String) (h : String) :
    (∀ l ∈ removeKnownHostLines lines h, strContains l h = false) ∧
    (∀ l ∈ lines, strContains l h = false → l ∈ removeKnownHostLines lines h) ∧
    (∀ l ∈ lines, strContains l h = true → l ∉ removeKnownHostLines lines h) := by
  refine ⟨?_, ?_, ?_⟩
  · intro l hl
    have := (List.mem_filter.1 hl).2
    simpa using this
  · intro l hl hc
    exact List.mem_filter.2 ⟨hl, by simp [hc]⟩
  · intro l hl hc hmem
    have := (List.mem_filter.1 hmem).2
    simp [hc] at this

/-- C10 witness: removing "db" deletes the stored line for the different
hostname "db1" (whose line contains "db" as a substring), leaving only the
unrelated line. -/
theorem C10_remove_by_substring_witness :
    "db1 ssh-ed25519 AAAA" ∉
      removeKnownHostLines ["db1 ssh-ed25519 AAAA", "web ssh-rsa BBBB"] "db" ∧
    removeKnownHostLines ["db1 ssh-ed25519 AAAA", "web ssh-rsa BBBB"] "db" =
      ["web ssh-rsa BBBB"] := by
  constructor
  · exact (C10_remove_by_substring ["db1 ssh-ed25519 AAAA", "web ssh-rsa BBBB"] "db").2.2
      "db1 ssh-ed25519 AAAA" (by decide) (by decide)
  · decide

/-- C4: the status output "Status: Disconnected" — whose status line reports
Disconnected, as the second conjunct records — is parsed by
`parseNetBirdStatus` as connected: the parser tests the substring "connected"
before "disconnected", and "disconnected" contains "connected", so the
fail-closed requirement is violated (the explicit Disconnected branch is
unreachable). -/
theorem C4_disconnected_status_parses_as_connected :
    (parseNetBirdStatus "Status: Disconnected").connected = true ∧
    strContains (strToLower (trimSpace "Status: Disconnected")) "disconnected" = true := by
  decide

end Klip
